import Mathlib

/-!
Verification development for the appbuilder back end's data layer:
the tenant namespace generator and metadata store (models/Database),
the record repository write path (routes/databases.js), and the
filter compiler / query surface (routes/databaseQueries.js).

JavaScript runtime values are embedded as the inductive `JsVal`;
the JS built-ins the routes call (`Number`, `parseFloat`, `Boolean`,
`String`, `new Date`) are modelled as Lean functions on `JsVal`.
Numeric strings are modelled in their integer-literal fragment
(no fraction, exponent or hex forms): every numeric literal the
routes' spec examples exercise is an integer or a non-numeric string.
Date-string parsing is implementation-defined in JS, so it enters the
model as an explicit parameter `pd : String → Option Int`
(`none` = Invalid Date, `some t` = epoch milliseconds).
-/

/-- A JavaScript runtime value as the routes see it: strings, finite
numbers (integer fragment), the distinguished NaN, booleans, Date
objects (invalid dates carry `none`), null and undefined. -/
inductive JsVal where
  | vStr (s : String)
  | vNum (n : Int)
  | vNaN
  | vBool (b : Bool)
  | vDate (t : Option Int)
  | vNull
  | vUndefined
deriving DecidableEq, Repr

/-- JS truthiness: `Boolean(v)`. Objects (dates, even invalid ones) are
truthy; false, 0, NaN, the empty string, null and undefined are falsy. -/
def jsTruthy : JsVal → Bool
  | .vBool b => b
  | .vNum n => decide (n ≠ 0)
  | .vNaN => false
  | .vStr s => decide (s ≠ "")
  | .vNull => false
  | .vUndefined => false
  | .vDate _ => true

/-- Decimal digit value of a character, if it is a digit. -/
def digitVal (c : Char) : Option Nat :=
  if 48 ≤ c.toNat ∧ c.toNat ≤ 57 then some (c.toNat - 48) else none

/-- Reads a non-empty all-digit character list as a natural number;
`none` when empty or when any character is not a digit. -/
def digitsToNat (l : List Char) : Option Nat :=
  match l with
  | [] => none
  | _ => go l 0
where
  go : List Char → Nat → Option Nat
  | [], acc => some acc
  | c :: rest, acc =>
    match digitVal c with
    | some d => go rest (acc * 10 + d)
    | none => none

/-- True for the ASCII whitespace JS trims around numeric strings. -/
def isWsChar (c : Char) : Bool :=
  decide (c = ' ' ∨ c = '\t' ∨ c = '\n' ∨ c = '\r')

/-- Leading and trailing whitespace removed. -/
def trimWs (l : List Char) : List Char :=
  ((l.dropWhile isWsChar).reverse.dropWhile isWsChar).reverse

/-- Model of JS `Number(string)` on its integer-literal fragment: trim
whitespace, the empty string is 0, otherwise an optional sign followed
by digits only; anything else is NaN (`none`). -/
def numberOfString (s : String) : Option Int :=
  match trimWs s.data with
  | [] => some 0
  | '-' :: rest => (digitsToNat rest).map (fun n => -(n : Int))
  | '+' :: rest => (digitsToNat rest).map (fun n => (n : Int))
  | l => (digitsToNat l).map (fun n => (n : Int))

/-- Longest leading run of decimal digits. -/
def leadingDigits (l : List Char) : List Char :=
  l.takeWhile (fun c => decide (48 ≤ c.toNat ∧ c.toNat ≤ 57))

/-- Model of JS `parseFloat(string)` on its integer-literal fragment:
skip leading whitespace, optional sign, then the longest digit run;
NaN (`none`) when no digit follows. -/
def parseFloatStr (s : String) : Option Int :=
  match s.data.dropWhile isWsChar with
  | '-' :: rest => (digitsToNat (leadingDigits rest)).map (fun n => -(n : Int))
  | '+' :: rest => (digitsToNat (leadingDigits rest)).map (fun n => (n : Int))
  | l => (digitsToNat (leadingDigits l)).map (fun n => (n : Int))

/-- Model of JS `Number(v)` (`none` = NaN). Booleans become 0/1, null
becomes 0, undefined becomes NaN, a Date becomes its epoch time. -/
def jsNumber : JsVal → Option Int
  | .vStr s => numberOfString s
  | .vNum n => some n
  | .vNaN => none
  | .vBool b => some (cond b 1 0)
  | .vNull => some 0
  | .vUndefined => none
  | .vDate t => t

/-- Model of JS `parseFloat(v)`: the argument is first converted to a
string, so booleans, null, undefined and dates all parse to NaN (their
string forms start with a letter), while numbers parse to themselves. -/
def jsParseFloat : JsVal → Option Int
  | .vStr s => parseFloatStr s
  | .vNum n => some n
  | .vNaN => none
  | .vBool _ => none
  | .vNull => none
  | .vUndefined => none
  | .vDate _ => none

/-- Model of JS `String(v)`. The rendering of a valid Date object is
implementation-defined in JS and is modelled by an abstract tag;
an invalid Date renders as the real JS "Invalid Date". -/
def jsToString : JsVal → String
  | .vStr s => s
  | .vNum n => toString n
  | .vNaN => "NaN"
  | .vBool b => cond b "true" "false"
  | .vNull => "null"
  | .vUndefined => "undefined"
  | .vDate none => "Invalid Date"
  | .vDate (some t) => "Date " ++ toString t

/-- Model of JS `new Date(v)` (`none` = Invalid Date). String arguments
go through the implementation-defined parser `pd`; numbers are epoch
milliseconds; `new Date(null)` is epoch 0; booleans coerce to 0/1;
`new Date(undefined)` and `new Date(NaN)` are invalid. -/
def jsNewDate (pd : String → Option Int) : JsVal → Option Int
  | .vStr s => pd s
  | .vNum n => some n
  | .vNaN => none
  | .vBool b => some (cond b 1 0)
  | .vNull => some 0
  | .vUndefined => none
  | .vDate t => t

/-- routes/databases.js `validateFieldValue(value, type)`: the record
write path's per-type coercion. `pd` models the JS date-string parser
and `now` the current time (`new Date()` with no argument). -/
def validateFieldValue (pd : String → Option Int) (now : Int)
    (value : JsVal) (type : String) : JsVal :=
  match type with
  | "number" =>
    match jsNumber value with
    | some n => .vNum n
    | none => .vNum 0
  | "boolean" => .vBool (jsTruthy value)
  | "date" =>
    match jsNewDate pd value with
    | some t => .vDate (some t)
    | none => .vDate (some now)
  | _ => .vStr (if jsTruthy value then jsToString value else "")

/-- routes/databases.js `getDefaultValue(type)`: the per-type default
used when an insert omits a column. -/
def getDefaultValue (now : Int) (type : String) : JsVal :=
  match type with
  | "number" => .vNum 0
  | "boolean" => .vBool false
  | "date" => .vDate (some now)
  | _ => .vStr ""

/-- routes/databaseQueries.js `convertFilterValue(value, type)`: the
filter compiler's per-type coercion. Note the date branch is a bare
`new Date(value)` with no invalid-date fallback. -/
def convertFilterValue (pd : String → Option Int)
    (value : JsVal) (type : String) : JsVal :=
  match type with
  | "number" =>
    match jsParseFloat value with
    | some n => .vNum n
    | none => .vNum 0
  | "boolean" =>
    match value with
    | .vBool b => .vBool b
    | _ => .vBool (decide (value = .vStr "true") || decide (value = .vStr "1")
        || decide (value = .vNum 1))
  | "date" => .vDate (jsNewDate pd value)
  | _ => .vStr (jsToString value)

/-- Column metadata, as in the `columnSchema` of models/Database:
a name, a type string, the insertion order, plus the mongoose-assigned
subdocument id (modelled as a natural). -/
structure Column where
  name : String
  type : String
  order : Int
  id : Nat
deriving DecidableEq, Repr

/-- Table metadata, as in the `tableSchema` of models/Database. -/
structure Table where
  name : String
  columns : List Column
deriving DecidableEq, Repr

/-- A stored record: the mongo document id plus its fields. -/
structure Rec where
  id : Nat
  fields : List (String × JsVal)
deriving DecidableEq, Repr

/-- A filter as received by the query endpoint; absent JSON keys are
`none` (`value = none` models JS `undefined`). -/
structure QueryFilter where
  column : Option String := none
  operator : Option String := none
  value : Option JsVal := none
  logic : Option String := none
deriving DecidableEq, Repr

/-- One MongoDB condition as built by `buildMongoCondition`:
an equality, an ordered comparison, or a case-insensitive regex. -/
inductive MongoCond where
  | eq (column : String) (value : JsVal)
  | ne (column : String) (value : JsVal)
  | gt (column : String) (value : JsVal)
  | lt (column : String) (value : JsVal)
  | gte (column : String) (value : JsVal)
  | lte (column : String) (value : JsVal)
  | regex (column : String) (value : JsVal)
deriving DecidableEq, Repr

/-- A MongoDB query as built by `buildMongoQuery`: the empty match-all
document, a single condition, or a conjunction of conditions. -/
inductive MongoQuery where
  | all
  | cond (c : MongoCond)
  | and (cs : List MongoCond)
deriving DecidableEq, Repr

/-- routes/databaseQueries.js `buildMongoCondition(column, operator,
value)`: maps a recognized operator to a condition; an unrecognized
operator yields `none` (the code logs a warning and returns null). -/
def buildMongoCondition (column : String) (operator : String)
    (value : JsVal) : Option MongoCond :=
  match operator with
  | "equals" => some (.eq column value)
  | "not_equals" => some (.ne column value)
  | "greater_than" => some (.gt column value)
  | "less_than" => some (.lt column value)
  | "greater_equal" => some (.gte column value)
  | "less_equal" => some (.lte column value)
  | "contains" => some (.regex column value)
  | _ => none

/-- The loop body of `buildMongoQuery`: a filter missing its column or
operator (JS-falsy: absent or the empty string), or whose value is
undefined, contributes nothing; otherwise the column's declared type
(default "string") drives `convertFilterValue` and the operator is
mapped by `buildMongoCondition`. -/
def conditionOfFilter (pd : String → Option Int) (tableColumns : List Column)
    (f : QueryFilter) : Option MongoCond :=
  match f.column, f.operator, f.value with
  | some c, some op, some v =>
    if c = "" ∨ op = "" then none
    else
      let columnType :=
        match tableColumns.find? (fun col => col.name = c) with
        | some colDef => colDef.type
        | none => "string"
      buildMongoCondition c op (convertFilterValue pd v columnType)
  | _, _, _ => none

/-- routes/databaseQueries.js `buildMongoQuery(filters, tableColumns)`:
collect the per-filter conditions, then return match-all for zero,
the condition itself for one, and an and-document for two or more. -/
def buildMongoQuery (pd : String → Option Int) (filters : List QueryFilter)
    (tableColumns : List Column) : MongoQuery :=
  if filters.isEmpty then .all
  else
    match filters.filterMap (conditionOfFilter pd tableColumns) with
    | [] => .all
    | [c] => .cond c
    | cs => .and cs

/-- BSON scalar ordering as MongoDB's range operators use it: values of
the same scalar type compare naturally, values of different BSON types
are type-bracketed and never satisfy a range condition (`none`). -/
def bsonCompare : JsVal → JsVal → Option Ordering
  | .vNum a, .vNum b => some (compare a b)
  | .vStr a, .vStr b => some (compare a b)
  | .vBool a, .vBool b => some (compare a b)
  | .vDate (some a), .vDate (some b) => some (compare a b)
  | _, _ => none

/-- Field lookup in a stored document. -/
def fieldVal (r : Rec) (column : String) : Option JsVal :=
  r.fields.lookup column

/-- MongoDB equality match: a missing field matches only a null query
value. -/
def eqMatch (fv : Option JsVal) (v : JsVal) : Bool :=
  match fv with
  | some w => decide (w = v)
  | none => decide (v = JsVal.vNull)

/-- Range match through `bsonCompare`; missing fields never match. -/
def cmpMatch (fv : Option JsVal) (v : JsVal) (pick : Ordering → Bool) : Bool :=
  match fv with
  | some w =>
    match bsonCompare w v with
    | some o => pick o
    | none => false
  | none => false

/-- Case-insensitive literal substring test, modelling the `$regex`
with option `i` that `contains` produces on the string patterns the
routes build (regex metacharacters are not exercised by the claims). -/
def containsCI (s pat : String) : Bool :=
  decide (List.IsInfix (pat.toLower).data (s.toLower).data)

/-- Semantics of one condition over a stored document, following
MongoDB's matching rules for the embedded scalar types. -/
def evalCond (c : MongoCond) (r : Rec) : Bool :=
  match c with
  | .eq column v => eqMatch (fieldVal r column) v
  | .ne column v => ! eqMatch (fieldVal r column) v
  | .gt column v => cmpMatch (fieldVal r column) v (fun o => o = .gt)
  | .lt column v => cmpMatch (fieldVal r column) v (fun o => o = .lt)
  | .gte column v => cmpMatch (fieldVal r column) v (fun o => o ≠ .lt)
  | .lte column v => cmpMatch (fieldVal r column) v (fun o => o ≠ .gt)
  | .regex column v =>
    match fieldVal r column, v with
    | some (.vStr s), .vStr pat => containsCI s pat
    | _, _ => false

/-- Semantics of a compiled query over a stored document. -/
def evalQuery (q : MongoQuery) (r : Rec) : Bool :=
  match q with
  | .all => true
  | .cond c => evalCond c r
  | .and cs => cs.all (fun c => evalCond c r)

/-- The record-insert handler's `recordData` build (routes/databases.js
POST records): for every column of the table, the coerced request value
when the field is present, else the type default. Request bodies are
parsed JSON, so present values are never `undefined`. -/
def buildRecordData (pd : String → Option Int) (now : Int)
    (columns : List Column) (body : List (String × JsVal)) :
    List (String × JsVal) :=
  columns.map (fun column =>
    match body.lookup column.name with
    | some value => (column.name, validateFieldValue pd now value column.type)
    | none => (column.name, getDefaultValue now column.type))

/-- The record-update handler's `updateData` build (routes/databases.js
PUT records): every request field naming a known column is coerced;
fields naming no column are dropped. -/
def buildUpdateData (pd : String → Option Int) (now : Int)
    (columns : List Column) (body : List (String × JsVal)) :
    List (String × JsVal) :=
  body.filterMap (fun kv =>
    match columns.find? (fun col => col.name = kv.1) with
    | some column => some (kv.1, validateFieldValue pd now kv.2 column.type)
    | none => none)

/-- MongoDB semantics of the delete-multiple handler's
`deleteMany with an id-in-set filter` call: every stored document whose
id is in the requested set is removed, and `deletedCount` — which the
handler reports back — is the number of documents removed. Ids with no
matching document simply match nothing. -/
def deleteManyByIds (records : List Rec) (ids : List Nat) :
    List Rec × Nat :=
  (records.filter (fun r => ! ids.contains r.id),
   (records.filter (fun r => ids.contains r.id)).length)

/-- The query handler's `value` action (routes/databaseQueries.js):
a 400 error when no column was given; otherwise `findOne` under the
compiled query — the first matching document projected to the requested
column — and the empty object when nothing matches. -/
def queryValueAction (records : List Rec) (q : MongoQuery)
    (column : Option String) : Except String (List (String × JsVal)) :=
  match column with
  | none => .error "Column must be specified for value action"
  | some c =>
    match records.find? (fun r => evalQuery q r) with
    | some doc => .ok [(c, (fieldVal doc c).getD .vUndefined)]
    | none => .ok []

/-- `Math.max(...orders)` over a table's columns, with the code's
explicit −1 for an empty column list (models/Database `addColumn`). -/
def maxOrder (columns : List Column) : Int :=
  match columns with
  | [] => -1
  | c :: rest => (rest.map Column.order).foldl max c.order

/-- models/Database `addColumn`: the new column gets order
`maxOrder + 1` and is appended; mongoose assigns the subdocument id,
modelled as the explicit argument `newId`. -/
def addColumn (columns : List Column) (name type : String)
    (newId : Nat) : List Column :=
  columns ++ [⟨name, type, maxOrder columns + 1, newId⟩]

/-- models/Database `removeColumn`: the subdocument with the requested
id is removed (subdocument ids are unique, so removing the first match
is exact). -/
def removeColumn (columns : List Column) (columnId : Nat) : List Column :=
  columns.eraseP (fun c => c.id = columnId)

/-- Column lists reachable through the metadata store's operations,
starting from the empty table that `addTable` creates. -/
inductive ReachableCols : List Column → Prop where
  | empty : ReachableCols []
  | add (s : List Column) (name type : String) (newId : Nat) :
      ReachableCols s → ReachableCols (addColumn s name type newId)
  | remove (s : List Column) (columnId : Nat) :
      ReachableCols s → ReachableCols (removeColumn s columnId)

/-- models/Database `addTable`: the metadata entry is appended and
saved first, then the physical container is created; a container
failure (the `containerCreate` argument) pops the just-added entry,
saves again, and rethrows the storage error, while success returns
the appended entry. -/
def addTable (tables : List Table) (tableName : String)
    (containerCreate : Except String Unit) : List Table × Except String Table :=
  let tables1 := tables ++ [⟨tableName, []⟩]
  match containerCreate with
  | .ok _ => (tables1, .ok ⟨tableName, []⟩)
  | .error e => (tables1.dropLast, .error e)

/-- ASCII model of JS `toLowerCase` on one character (the sanitizer in
models/Database only distinguishes ASCII letters and digits). -/
def jsLowerChar (c : Char) : Char :=
  if 65 ≤ c.toNat ∧ c.toNat ≤ 90 then Char.ofNat (c.toNat + 32) else c

/-- One step of the regex replace in `generateMongoDbName`: a character
outside `[a-zA-Z0-9]` becomes an underscore. -/
def replaceNonAlnum (c : Char) : Char :=
  if (97 ≤ c.toNat ∧ c.toNat ≤ 122) ∨ (65 ≤ c.toNat ∧ c.toNat ≤ 90)
      ∨ (48 ≤ c.toNat ∧ c.toNat ≤ 57) then c else '_'

/-- The spec's wording of the same replace, with the character class
`[a-z0-9]`; kept separate so the refinement between the code's class
(applied after lower-casing) and the spec's class is a theorem. -/
def replaceNonLowerAlnum (c : Char) : Char :=
  if (97 ≤ c.toNat ∧ c.toNat ≤ 122) ∨ (48 ≤ c.toNat ∧ c.toNat ≤ 57) then c else '_'

/-- The global replace of runs of underscores by a single underscore. -/
def collapseUnd : List Char → List Char
  | [] => []
  | [c] => [c]
  | c :: d :: rest =>
    if c = '_' ∧ d = '_' then collapseUnd (d :: rest)
    else c :: collapseUnd (d :: rest)

/-- The regex replace removing one leading underscore. -/
def dropLeadUnd : List Char → List Char
  | '_' :: rest => rest
  | l => l

/-- The regex replace removing one leading and one trailing underscore,
as the anchored global pattern in `generateMongoDbName` does. -/
def trimUnd (l : List Char) : List Char :=
  (dropLeadUnd (dropLeadUnd l).reverse).reverse

/-- JS `slice(-n)` on strings: the last `n` characters, or the whole
string when it is shorter than `n`. -/
def sliceLast (n : Nat) (l : List Char) : List Char :=
  l.drop (l.length - n)

/-- models/Database `generateMongoDbName`: lower-case the database
name, replace every character outside the alphanumeric class by an
underscore, collapse runs, trim one leading and one trailing
underscore, keep the first 15 characters; combine with the owner id's
last 8 characters and the millisecond timestamp's last 6 digits. -/
def generateMongoDbName (name owner : String) (nowMs : Nat) : String :=
  let sanitizedName := trimUnd (collapseUnd ((name.data.map jsLowerChar).map replaceNonAlnum))
  let userIdShort := sliceLast 8 owner.data
  let timestamp := sliceLast 6 (Nat.repr nowMs).data
  let nameShort := sanitizedName.take 15
  String.mk ("udb_".data ++ userIdShort ++ "_".data ++ nameShort ++ "_".data ++ timestamp)

/-- The claim's wording of `nameShort`: lower-case, replace every
character outside `[a-z0-9]` by an underscore, collapse, trim,
truncate to 15. -/
def nameShortSpec (name : String) : List Char :=
  (trimUnd (collapseUnd ((name.data.map jsLowerChar).map replaceNonLowerAlnum))).take 15

/-- A concrete date-parser instance for closed witnesses and
counterexamples: it parses no string. Each string it is applied to
below ("not-a-date") is likewise rejected by the JS date parser. -/
def pdNone : String → Option Int := fun _ => none

/-- The boolean coercion rule exactly as the spec's claim states it for
the record write path: pass booleans through, else true iff the value
strictly equals the string "true", the string "1", or the number 1. -/
def claimedBooleanCoercion (v : JsVal) : JsVal :=
  match v with
  | .vBool b => .vBool b
  | _ => .vBool (decide (v = .vStr "true") || decide (v = .vStr "1")
      || decide (v = .vNum 1))

/-- The seven operators `buildMongoCondition` recognizes. -/
def recognizedOp (op : String) : Bool :=
  op = "equals" || op = "not_equals" || op = "greater_than" || op = "less_than"
    || op = "greater_equal" || op = "less_equal" || op = "contains"

theorem int_compare_gt (a b : Int) : (compare a b = .gt) ↔ b < a := by
  change (if a < b then Ordering.lt else if a = b then Ordering.eq else Ordering.gt) = .gt ↔ b < a
  split_ifs <;> simp_all <;> omega

theorem int_compare_lt (a b : Int) : (compare a b = .lt) ↔ a < b := by
  change (if a < b then Ordering.lt else if a = b then Ordering.eq else Ordering.gt) = .lt ↔ a < b
  split_ifs <;> simp_all

/-- C7: if the physical container creation fails after `addTable` has
appended the new table entry to the metadata, the entry is popped again
— the metadata is exactly the pre-call table list — and the underlying
storage error is propagated unchanged to the caller. -/
theorem addTable_rollback (tables : List Table) (tableName : String) (e : String) :
    addTable tables tableName (Except.error e) = (tables, Except.error e) := by
  simp [addTable]

/-- C2, counterexample: for a boolean column the record write path does
not follow the claimed strict-equality rule — the string "false" is
JS-truthy, so `validateFieldValue` stores true where the claim demands
false. -/
theorem validateFieldValue_boolean_cex :
    validateFieldValue pdNone 0 (.vStr "false") "boolean" = .vBool true ∧
    claimedBooleanCoercion (.vStr "false") = .vBool false ∧
    validateFieldValue pdNone 0 (.vStr "false") "boolean" ≠
      claimedBooleanCoercion (.vStr "false") := by
  refine ⟨rfl, rfl, ?_⟩
  decide

/-- C2, amended: for a boolean column the record write path (used by
both the insert and the update handler) stores a boolean input
unchanged, and otherwise stores the JS truthiness of the input: false
exactly for false, 0, NaN, the empty string, null and undefined, and
true for every other value. -/
theorem validateFieldValue_boolean_truthiness (pd : String → Option Int)
    (now : Int) (v : JsVal) :
    validateFieldValue pd now v "boolean" = .vBool (jsTruthy v) ∧
    (∀ b : Bool, validateFieldValue pd now (.vBool b) "boolean" = .vBool b) ∧
    (validateFieldValue pd now v "boolean" = .vBool true ↔
      ¬(v = .vBool false ∨ v = .vNum 0 ∨ v = .vNaN ∨ v = .vStr ""
        ∨ v = .vNull ∨ v = .vUndefined)) ∧
    (buildRecordData pd now [⟨"flag", "boolean", 0, 0⟩] [("flag", v)]
      = [("flag", .vBool (jsTruthy v))]) ∧
    (buildUpdateData pd now [⟨"flag", "boolean", 0, 0⟩] [("flag", v)]
      = [("flag", .vBool (jsTruthy v))]) := by
  refine ⟨rfl, fun b => rfl, ?_, rfl, rfl⟩
  cases v <;> simp [validateFieldValue, jsTruthy]

/-- C3, counterexample: the filter compiler's date coercion is a bare
`new Date(value)`; an unparseable value yields an invalid date, not the
current time that the record write path's rule would produce. -/
theorem convertFilterValue_date_cex :
    convertFilterValue pdNone (.vStr "not-a-date") "date" = .vDate none ∧
    validateFieldValue pdNone 12345 (.vStr "not-a-date") "date" = .vDate (some 12345) ∧
    JsVal.vDate none ≠ JsVal.vDate (some 12345) := by
  refine ⟨rfl, rfl, ?_⟩
  decide

/-- C3, amended: for a date-typed column the filter compiler parses the
value as a date/time and keeps the raw result: a parseable value yields
its time, but an unparseable value yields an invalid date — it is not
replaced by the current time as the record write path's rule
(`validateFieldValue`) would do. -/
theorem convertFilterValue_date_raw (pd : String → Option Int) (s : String)
    (now : Int) (h : pd s = none) :
    convertFilterValue pd (.vStr s) "date" = .vDate none ∧
    convertFilterValue pd (.vStr s) "date" ≠ .vDate (some now) ∧
    validateFieldValue pd now (.vStr s) "date" = .vDate (some now) ∧
    (∀ s' t, pd s' = some t →
      convertFilterValue pd (.vStr s') "date" = .vDate (some t)) := by
  refine ⟨?_, ?_, ?_, ?_⟩
  · simp [convertFilterValue, jsNewDate, h]
  · simp [convertFilterValue, jsNewDate, h]
  · simp [validateFieldValue, jsNewDate, h]
  · intro s' t ht
    simp [convertFilterValue, jsNewDate, ht]

/-- C3, witness for `convertFilterValue_date_raw` at the concrete
parser instance `pdNone` and the probe string "not-a-date". -/
theorem convertFilterValue_date_raw_witness :
    pdNone "not-a-date" = none ∧
    convertFilterValue pdNone (.vStr "not-a-date") "date" = .vDate none :=
  ⟨rfl, (convertFilterValue_date_raw pdNone "not-a-date" 0 rfl).1⟩

/-- C10: when the query endpoint's `value` action is given a column but
no record matches the compiled filters, the operation succeeds with the
empty object as its data — an `ok` result, not an error, carrying no
key at all (in particular not the requested column's key). -/
theorem queryValue_no_match (records : List Rec) (q : MongoQuery) (c : String)
    (h : ∀ r ∈ records, evalQuery q r = false) :
    queryValueAction records q (some c) = .ok [] ∧
    List.lookup c ([] : List (String × JsVal)) = none := by
  have hf : records.find? (fun r => evalQuery q r) = none := by
    rw [List.find?_eq_none]
    intro r hr
    simp [h r hr]
  refine ⟨?_, rfl⟩
  simp [queryValueAction, hf]

/-- C10, witness: one stored record with age 5 against the filter
age greater_than 18. -/
theorem queryValue_no_match_witness :
    queryValueAction [⟨1, [("age", JsVal.vNum 5)]⟩]
      (buildMongoQuery pdNone
        [⟨some "age", some "greater_than", some (.vStr "18"), none⟩]
        [⟨"age", "number", 0, 0⟩]) (some "age") = .ok [] :=
  (queryValue_no_match _ _ "age" (by decide)).1

/-- C9: a `deleteMany` whose id set mixes existing and nonexistent
record ids removes exactly the stored records whose id is in the set,
reports as its count exactly the number of records it removed, and
treats nonexistent ids as matching nothing rather than as an error:
the outcome is identical to deleting only the ids that exist. -/
theorem deleteMany_mixed_ids (records : List Rec) (ids : List Nat) :
    (∀ r ∈ records, r ∈ (deleteManyByIds records ids).1 ↔ r.id ∉ ids) ∧
    (deleteManyByIds records ids).2 + (deleteManyByIds records ids).1.length
      = records.length ∧
    deleteManyByIds records ids
      = deleteManyByIds records (ids.filter (fun i => records.any (fun r => r.id = i))) := by
  refine ⟨?_, ?_, ?_⟩
  · intro r hr
    simp [deleteManyByIds, List.mem_filter, hr]
  · simp only [deleteManyByIds, List.contains, List.elem_eq_mem]
    induction records with
    | nil => rfl
    | cons r rest ih =>
      simp only [List.filter_cons]
      by_cases h : r.id ∈ ids
      · simp [h]
        omega
      · simp [h]
        omega
  · have hmem : ∀ r ∈ records,
        (r.id ∈ ids.filter (fun i => records.any (fun r' => r'.id = i))) ↔ r.id ∈ ids := by
      intro r hr
      simp only [List.mem_filter, List.any_eq_true, decide_eq_true_eq]
      exact ⟨fun h => h.1, fun h => ⟨h, ⟨r, hr, rfl⟩⟩⟩
    have hcont : ∀ r ∈ records,
        (ids.filter (fun i => records.any (fun r' => r'.id = i))).contains r.id
          = ids.contains r.id := by
      intro r hr
      simp only [List.contains, List.elem_eq_mem]
      exact decide_eq_decide.mpr (hmem r hr)
    have hfeq :
        List.filter (fun r => ids.contains r.id) records
          = List.filter
              (fun r => (ids.filter (fun i => records.any (fun r' => r'.id = i))).contains r.id)
              records :=
      List.filter_congr (fun r hr => by rw [hcont r hr])
    have hfeqNot :
        List.filter (fun r => ! ids.contains r.id) records
          = List.filter
              (fun r => ! (ids.filter (fun i => records.any (fun r' => r'.id = i))).contains r.id)
              records :=
      List.filter_congr (fun r hr => by rw [hcont r hr])
    simp only [deleteManyByIds, Prod.mk.injEq]
    exact ⟨hfeqNot, congrArg List.length hfeq⟩

/-- C9, witness: records 1, 2, 3 against the id set 2, 9 — record 2 is
removed, the count is 1, and the nonexistent id 9 changes nothing. -/
theorem deleteMany_mixed_ids_witness :
    (⟨2, []⟩ : Rec) ∈ [(⟨1, []⟩ : Rec), ⟨2, []⟩, ⟨3, []⟩] ∧
    ((⟨2, []⟩ : Rec) ∈ (deleteManyByIds [⟨1, []⟩, ⟨2, []⟩, ⟨3, []⟩] [2, 9]).1 ↔ (2 : Nat) ∉ [2, 9]) :=
  ⟨by decide, (deleteMany_mixed_ids [⟨1, []⟩, ⟨2, []⟩, ⟨3, []⟩] [2, 9]).1 ⟨2, []⟩ (by decide)⟩

theorem buildMongoCondition_unrecognized (c : String) (op : String) (v : JsVal)
    (h : recognizedOp op = false) : buildMongoCondition c op v = none := by
  unfold buildMongoCondition
  split
  · simp [recognizedOp] at h
  · simp [recognizedOp] at h
  · simp [recognizedOp] at h
  · simp [recognizedOp] at h
  · simp [recognizedOp] at h
  · simp [recognizedOp] at h
  · simp [recognizedOp] at h
  · rfl

/-- C8: a filter whose operator is unrecognized (such as "between"),
or which is missing its column or operator, or whose value is
undefined, contributes no predicate: compiling the filter list with
such a filter spliced in yields exactly the query compiled from the
remaining filters, with no failure. -/
theorem buildMongoQuery_skips (pd : String → Option Int)
    (cols : List Column) (fs1 fs2 : List QueryFilter) (f : QueryFilter)
    (h : f.column = none ∨ f.column = some "" ∨ f.operator = none
      ∨ f.operator = some "" ∨ f.value = none
      ∨ ∃ op, f.operator = some op ∧ recognizedOp op = false) :
    buildMongoQuery pd (fs1 ++ f :: fs2) cols = buildMongoQuery pd (fs1 ++ fs2) cols := by
  have hf : conditionOfFilter pd cols f = none := by
    obtain ⟨c, op, v, l⟩ := f
    simp only at h
    rcases h with rfl | rfl | rfl | rfl | rfl | ⟨op', rfl, hrec⟩
    · cases op <;> cases v <;> rfl
    · cases op <;> cases v <;> simp [conditionOfFilter]
    · cases c <;> cases v <;> rfl
    · cases c <;> cases v <;> simp [conditionOfFilter]
    · cases c <;> cases op <;> rfl
    · cases c with
      | none => cases v <;> rfl
      | some cName =>
        cases v with
        | none => rfl
        | some v' =>
          unfold conditionOfFilter
          by_cases hc : cName = "" ∨ op' = ""
          · simp [hc]
          · simp only [hc, if_false]
            exact buildMongoCondition_unrecognized _ _ _ hrec
  have hmaps : (fs1 ++ f :: fs2).filterMap (conditionOfFilter pd cols)
      = (fs1 ++ fs2).filterMap (conditionOfFilter pd cols) := by
    simp [List.filterMap_append, List.filterMap_cons, hf]
  unfold buildMongoQuery
  by_cases he : (fs1 ++ fs2).isEmpty
  · have h1 : fs1 = [] := by
      cases fs1 <;> simp_all
    have h2 : fs2 = [] := by
      cases fs2 <;> simp_all
    subst h1; subst h2
    simp [hf]
  · have hne : ((fs1 ++ f :: fs2).isEmpty) = false := by
      cases fs1 <;> simp
    rw [hne, if_neg (by simp [he]), hmaps]
    simp [he]

/-- C8, witness: splicing a "between" filter into a one-filter list
leaves the compiled query unchanged. -/
theorem buildMongoQuery_skips_witness :
    buildMongoQuery pdNone
      [⟨some "age", some "greater_than", some (.vStr "18"), none⟩,
       ⟨some "age", some "between", some (.vStr "30"), none⟩]
      [⟨"age", "number", 0, 0⟩]
    = buildMongoQuery pdNone
      [⟨some "age", some "greater_than", some (.vStr "18"), none⟩]
      [⟨"age", "number", 0, 0⟩] :=
  buildMongoQuery_skips pdNone [⟨"age", "number", 0, 0⟩]
    [⟨some "age", some "greater_than", some (.vStr "18"), none⟩] []
    ⟨some "age", some "between", some (.vStr "30"), none⟩
    (Or.inr (Or.inr (Or.inr (Or.inr (Or.inr ⟨"between", rfl, by decide⟩)))))

/-- C4: the compiled query is semantically the conjunction of the
per-filter predicates — match-all for zero predicates, the predicate
itself for one, the AND of all for two or more; the compiled query
ignores every filter's `logic` field; the empty filter list compiles to
match-all; and the greater_than-18 / less_than-65 example on a number
column age matches exactly the records with 18 < age < 65. -/
theorem buildMongoQuery_and_semantics (pd : String → Option Int)
    (filters : List QueryFilter) (cols : List Column) (r : Rec) (l : Option String) :
    (evalQuery (buildMongoQuery pd filters cols) r
      = (filters.filterMap (conditionOfFilter pd cols)).all (fun c => evalCond c r)) ∧
    (buildMongoQuery pd (filters.map (fun f => { f with logic := l })) cols
      = buildMongoQuery pd filters cols) ∧
    (buildMongoQuery pd [] cols = .all) ∧
    (∀ n : Int, fieldVal r "age" = some (.vNum n) →
      evalQuery (buildMongoQuery pd
        [⟨some "age", some "greater_than", some (.vStr "18"), none⟩,
         ⟨some "age", some "less_than", some (.vStr "65"), none⟩]
        [⟨"age", "number", 0, 0⟩]) r
      = (decide (18 < n) && decide (n < 65))) := by
  refine ⟨?_, ?_, rfl, ?_⟩
  · unfold buildMongoQuery
    split
    · rename_i he
      have h0 : filters = [] := List.isEmpty_iff.mp he
      subst h0
      simp [evalQuery]
    · split
      · rename_i heq
        rw [heq]
        simp [evalQuery]
      · rename_i c heq
        rw [heq]
        simp [evalQuery]
      · rfl
  · have hlen : (filters.map (fun f => { f with logic := l })).isEmpty = filters.isEmpty := by
      cases filters <;> rfl
    have hfm : (filters.map (fun f => { f with logic := l })).filterMap (conditionOfFilter pd cols)
        = filters.filterMap (conditionOfFilter pd cols) := by
      rw [List.filterMap_map]
      rfl
    unfold buildMongoQuery
    rw [hlen, hfm]
  · intro n hn
    have hq : buildMongoQuery pd
        [⟨some "age", some "greater_than", some (.vStr "18"), none⟩,
         ⟨some "age", some "less_than", some (.vStr "65"), none⟩]
        [⟨"age", "number", 0, 0⟩]
        = .and [.gt "age" (.vNum 18), .lt "age" (.vNum 65)] := rfl
    rw [hq]
    show (evalCond (.gt "age" (.vNum 18)) r && (evalCond (.lt "age" (.vNum 65)) r && true)) = _
    simp only [evalCond, hn, cmpMatch, bsonCompare, Bool.and_true]
    rw [decide_eq_decide.mpr (int_compare_gt n 18), decide_eq_decide.mpr (int_compare_lt n 65)]

/-- C4, witness: a record with age 42 satisfies the compiled
greater_than-18 AND less_than-65 query. -/
theorem buildMongoQuery_and_semantics_witness :
    evalQuery (buildMongoQuery pdNone
      [⟨some "age", some "greater_than", some (.vStr "18"), none⟩,
       ⟨some "age", some "less_than", some (.vStr "65"), none⟩]
      [⟨"age", "number", 0, 0⟩]) ⟨1, [("age", JsVal.vNum 42)]⟩
    = (decide ((18 : Int) < 42) && decide ((42 : Int) < 65)) :=
  (buildMongoQuery_and_semantics pdNone [] [] ⟨1, [("age", JsVal.vNum 42)]⟩ none).2.2.2 42 rfl

theorem lookup_eq_none_of_not_mem_keys {β : Type} (l : List (String × β)) (k : String)
    (h : k ∉ l.map Prod.fst) : l.lookup k = none := by
  induction l with
  | nil => rfl
  | cons kv rest ih =>
    simp only [List.map_cons, List.mem_cons] at h
    push_neg at h
    simp only [List.lookup]
    have hb : (k == kv.1) = false := beq_false_of_ne h.1
    rw [hb]
    exact ih h.2

theorem buildRecordData_lookup (pd : String → Option Int) (now : Int)
    (cols : List Column) (body : List (String × JsVal))
    (hnd : (cols.map Column.name).Nodup) (col : Column) (hc : col ∈ cols) :
    (buildRecordData pd now cols body).lookup col.name
      = some (match body.lookup col.name with
              | some v => validateFieldValue pd now v col.type
              | none => getDefaultValue now col.type) := by
  induction cols with
  | nil => cases hc
  | cons c cs ih =>
    simp only [List.map_cons, List.nodup_cons] at hnd
    rcases List.mem_cons.mp hc with rfl | hmem
    · simp only [buildRecordData, List.map_cons]
      cases hb : body.lookup col.name <;>
        simp [hb, List.lookup]
    · have hne : col.name ≠ c.name := by
        intro he
        exact hnd.1 (he ▸ List.mem_map_of_mem Column.name hmem)
      simp only [buildRecordData, List.map_cons]
      cases hb : body.lookup c.name <;>
        · simp only [hb, List.lookup, beq_false_of_ne hne]
          exact ih hnd.2 hmem

/-- C5: an insert writes one field per declared column — the coerced
caller value when the request carries the field, the type default when
it does not; keys outside the column list never reach the stored
record; and on a number column age, the request value "37abc" stores 0
(Number("37abc") is NaN) just as the empty request stores the default 0. -/
theorem insert_recordData_build (pd : String → Option Int) (now : Int)
    (cols : List Column) (body : List (String × JsVal))
    (hnd : (cols.map Column.name).Nodup) :
    ((buildRecordData pd now cols body).map Prod.fst = cols.map Column.name) ∧
    (∀ col ∈ cols, (buildRecordData pd now cols body).lookup col.name
      = some (match body.lookup col.name with
              | some v => validateFieldValue pd now v col.type
              | none => getDefaultValue now col.type)) ∧
    (∀ k, k ∉ cols.map Column.name → (buildRecordData pd now cols body).lookup k = none) ∧
    (buildRecordData pd now [⟨"age", "number", 0, 0⟩] [("age", .vStr "37abc")]
      = [("age", .vNum 0)]) ∧
    (buildRecordData pd now [⟨"age", "number", 0, 0⟩] [] = [("age", .vNum 0)]) := by
  have hkeys : (buildRecordData pd now cols body).map Prod.fst = cols.map Column.name := by
    unfold buildRecordData
    rw [List.map_map]
    refine List.map_congr_left ?_
    intro col hcol
    simp only [Function.comp_apply]
    cases hb : List.lookup col.name body <;> simp [hb]
  refine ⟨hkeys, ?_, ?_, rfl, rfl⟩
  · intro col hc
    exact buildRecordData_lookup pd now cols body hnd col hc
  · intro k hk
    refine lookup_eq_none_of_not_mem_keys _ k ?_
    rw [hkeys]
    exact hk

/-- C5, witness: the single-column table age:number with the request
value "37abc" stores age 0. -/
theorem insert_recordData_build_witness :
    buildRecordData pdNone 0 [⟨"age", "number", 0, 0⟩] [("age", .vStr "37abc")]
      = [("age", .vNum 0)] :=
  (insert_recordData_build pdNone 0 [⟨"age", "number", 0, 0⟩]
    [("age", .vStr "37abc")] (by decide)).2.2.2.1

theorem le_foldl_max (l : List Int) (init : Int) : init ≤ l.foldl max init := by
  induction l generalizing init with
  | nil => exact le_refl init
  | cons x xs ih => exact le_trans (le_max_left init x) (ih (max init x))

theorem mem_le_foldl_max (l : List Int) (init : Int) (x : Int) (hx : x ∈ l) :
    x ≤ l.foldl max init := by
  induction l generalizing init with
  | nil => cases hx
  | cons y ys ih =>
    rcases List.mem_cons.mp hx with rfl | h
    · exact le_trans (le_max_right init x) (le_foldl_max ys (max init x))
    · exact ih (max init y) h

theorem order_le_maxOrder (cols : List Column) (c : Column) (hc : c ∈ cols) :
    c.order ≤ maxOrder cols := by
  cases cols with
  | nil => cases hc
  | cons c0 rest =>
    rcases List.mem_cons.mp hc with rfl | h
    · exact le_foldl_max (rest.map Column.order) c.order
    · exact mem_le_foldl_max (rest.map Column.order) c0.order c.order
        (List.mem_map_of_mem Column.order h)

theorem reachable_orders_increasing (s : List Column) (hs : ReachableCols s) :
    List.Pairwise (· < ·) (s.map Column.order) := by
  induction hs with
  | empty => exact List.Pairwise.nil
  | add s name type newId _ ih =>
    rw [addColumn, List.map_append]
    rw [List.pairwise_append]
    refine ⟨ih, List.pairwise_singleton _ _, ?_⟩
    intro a ha b hb
    simp only [List.map_cons, List.map_nil, List.mem_singleton] at hb
    subst hb
    obtain ⟨c, hc, rfl⟩ := List.mem_map.mp ha
    exact lt_of_le_of_lt (order_le_maxOrder s c hc) (lt_add_one (maxOrder s))
  | remove s columnId _ ih =>
    exact ih.sublist ((List.eraseP_sublist s).map Column.order)

/-- C6, counterexample: a freed order can be reused. Adding A then B
gives B order 1; after removing B (the maximum-order column), adding C
assigns C the same order 1, because the order is recomputed from the
maximum of the remaining orders. -/
theorem column_order_reuse_cex :
    ((addColumn (addColumn [] "A" "string" 1) "B" "string" 2).map Column.order
      = [0, 1]) ∧
    ((addColumn (removeColumn (addColumn (addColumn [] "A" "string" 1) "B" "string" 2) 2)
        "C" "string" 3).map Column.order = [0, 1]) := by
  decide

/-- C6, amended: `addColumn` assigns the new column the order
(maximum existing order, or −1) + 1, strictly above every current
order, so in every reachable table state the column orders strictly
increase in insertion sequence; A, B, C on an empty table get orders
0, 1, 2, and removing B then adding D gives D order 3. An order freed
by `removeColumn` can however be reused when the removed column held
the maximum order (see the counterexample). -/
theorem addColumn_order_assignment (s : List Column) (hs : ReachableCols s)
    (name type : String) (newId : Nat) :
    ((addColumn s name type newId).map Column.order
      = s.map Column.order ++ [maxOrder s + 1]) ∧
    (∀ c ∈ s, c.order < maxOrder s + 1) ∧
    List.Pairwise (· < ·) (s.map Column.order) ∧
    ((addColumn (addColumn (addColumn [] "A" "string" 1) "B" "string" 2) "C" "string" 3).map
        Column.order = [0, 1, 2]) ∧
    ((addColumn
        (removeColumn
          (addColumn (addColumn (addColumn [] "A" "string" 1) "B" "string" 2) "C" "string" 3)
          2)
        "D" "string" 4).map Column.order = [0, 2, 3]) := by
  refine ⟨?_, ?_, reachable_orders_increasing s hs, by decide, by decide⟩
  · rw [addColumn, List.map_append]
    rfl
  · intro c hc
    exact lt_of_le_of_lt (order_le_maxOrder s c hc) (lt_add_one (maxOrder s))

/-- C6, witness for `addColumn_order_assignment` at the reachable
one-column state built by a single `addColumn` on the empty table. -/
theorem addColumn_order_assignment_witness :
    (addColumn (addColumn [] "A" "string" 1) "B" "string" 2).map Column.order
      = (addColumn [] "A" "string" 1).map Column.order
        ++ [maxOrder (addColumn [] "A" "string" 1) + 1] :=
  (addColumn_order_assignment (addColumn [] "A" "string" 1)
    (ReachableCols.add [] "A" "string" 1 ReachableCols.empty) "B" "string" 2).1

theorem jsLowerChar_not_upper (c : Char) :
    ¬(65 ≤ (jsLowerChar c).toNat ∧ (jsLowerChar c).toNat ≤ 90) := by
  unfold jsLowerChar
  by_cases h : 65 ≤ c.toNat ∧ c.toNat ≤ 90
  · rw [if_pos h]
    obtain ⟨h1, h2⟩ := h
    generalize c.toNat = n at h1 h2 ⊢
    interval_cases n <;> decide
  · rw [if_neg h]
    omega

theorem replace_after_lower (c : Char) :
    replaceNonAlnum (jsLowerChar c) = replaceNonLowerAlnum (jsLowerChar c) := by
  have h := jsLowerChar_not_upper c
  unfold replaceNonAlnum replaceNonLowerAlnum
  refine if_congr ?_ rfl rfl
  constructor
  · rintro (ha | hu | hd)
    · exact Or.inl ha
    · exact absurd hu h
    · exact Or.inr hd
  · rintro (ha | hd)
    · exact Or.inl ha
    · exact Or.inr (Or.inr hd)

theorem sanitize_eq (name : String) :
    (name.data.map jsLowerChar).map replaceNonAlnum
      = (name.data.map jsLowerChar).map replaceNonLowerAlnum :=
  List.map_congr_left (fun c hc => by
    obtain ⟨c0, _, rfl⟩ := List.mem_map.mp hc
    exact replace_after_lower c0)

/-- C1: the generated namespace id is exactly
udb_ + (last 8 characters of the owner id) + _ + nameShort + _ +
(last 6 digits of the millisecond timestamp), with nameShort as the
claim words it (lower-case, replace outside a-z0-9 by underscore,
collapse runs, trim, truncate to 15) — the code's character class
a-zA-Z0-9 coincides with the claim's a-z0-9 after lower-casing — and
its length never exceeds 35 characters. -/
theorem generateMongoDbName_spec (name owner : String) (nowMs : Nat) :
    generateMongoDbName name owner nowMs
      = String.mk ("udb_".data ++ sliceLast 8 owner.data ++ "_".data
          ++ nameShortSpec name ++ "_".data ++ sliceLast 6 (Nat.repr nowMs).data) ∧
    (generateMongoDbName name owner nowMs).length ≤ 35 := by
  constructor
  · simp only [generateMongoDbName, nameShortSpec]
    rw [sanitize_eq]
  · simp only [generateMongoDbName]
    have hlen : ∀ l : List Char, (String.mk l).length = l.length := fun l => rfl
    rw [hlen]
    simp only [List.length_append]
    have h1 : (sliceLast 8 owner.data).length ≤ 8 := by
      simp only [sliceLast, List.length_drop]
      omega
    have h2 : (sliceLast 6 (Nat.repr nowMs).data).length ≤ 6 := by
      simp only [sliceLast, List.length_drop]
      omega
    have h3 : ((trimUnd (collapseUnd ((name.data.map jsLowerChar).map replaceNonAlnum))).take 15).length ≤ 15 := by
      rw [List.length_take]
      omega
    simp only [List.length_cons, List.length_nil]
    omega
